import Mathlib

set_option maxHeartbeats 1000000
set_option maxRecDepth 8192

/-!  Verification development for the `bix` hex viewer / patcher.

Shallow embedding of `src/main.rs`: the `View` renderer (structured and raw
modes) and the `Set` patcher.  Bytes are `Nat` values below 256; fallible
steps of the source (the `usize` padding subtraction that can overflow, the
`chunks(0)` panic) are modelled with `Option`. -/

/-- Layout flags of the `View` subcommand (`width`, `--no-group`, `--no-addr`,
`--no-ascii`, `--raw`), as in `ArgCommand::View`. -/
structure LayoutConfig where
  width : Nat
  no_group : Bool
  no_addr : Bool
  no_ascii : Bool
  raw : Bool

/-- Uppercase hexadecimal digit character for `n < 16` (as in Rust `{:X}`). -/
def hexDigit (n : Nat) : Char :=
  if n < 10 then Char.ofNat (48 + n) else Char.ofNat (55 + n)

/-- Rust `format!("{:02X}", byte)` for a byte value: two uppercase hex digits. -/
def hexByte (b : Nat) : String :=
  ⟨[hexDigit (b / 16), hexDigit (b % 16)]⟩

/-- Little-endian uppercase hex digits of `n` (empty for 0); any `fuel ≥ n` gives
the full digit list. -/
def hexDigitsAux : Nat → Nat → List Char
  | _, 0 => []
  | 0, _ + 1 => []
  | fuel + 1, n + 1 => hexDigit ((n + 1) % 16) :: hexDigitsAux fuel ((n + 1) / 16)

/-- Rust `format!("{:08X}", a)`: uppercase hex, zero-padded on the left to at
least 8 digits. -/
def addrHex (a : Nat) : String :=
  ⟨List.replicate (8 - (hexDigitsAux a a).reverse.length) '0' ++ (hexDigitsAux a a).reverse⟩

/-- Rust `u8::is_ascii_graphic`: `0x21 ..= 0x7E`. -/
def is_ascii_graphic (b : Nat) : Bool := decide (33 ≤ b ∧ b ≤ 126)

/-- Rust `u8::is_ascii_control`: `0x00 ..= 0x1F` or `0x7F`. -/
def is_ascii_control (b : Nat) : Bool := decide (b ≤ 31 ∨ b = 127)

/-- The ASCII-column display character of a byte: shown as itself when graphic
or a space and not a control character, otherwise `.` (source lines 119-125). -/
def asciiDisplay (b : Nat) : Char :=
  if (is_ascii_graphic b || b == 32) && !(is_ascii_control b) then Char.ofNat b else '.'

/-- The ASCII column text of one chunk. -/
def asciiString (chunk : List Nat) : String := ⟨chunk.map asciiDisplay⟩

/-- Hex cell text for one byte: two hex digits and a trailing space
(`print!("{:02X} ", byte)`). -/
def hexCell (b : Nat) : String := hexByte b ++ " "

/-- Concatenated hex cells, no grouping. -/
def hexCellsStr : List Nat → String
  | [] => ""
  | b :: rest => hexCell b ++ hexCellsStr rest

/-- The renderer's inner hex loop: cells in order and, when grouping is on, one
extra space right after cell index `mid - 1`
(source: `if !no_group && j + 1 == mid { print!(" "); }` with `mid = width / 2`). -/
def hexLoop (ng : Bool) (mid : Nat) : Nat → List Nat → String
  | _, [] => ""
  | j, b :: rest =>
      hexCell b ++ (if !ng && j + 1 == mid then " " else "") ++ hexLoop ng mid (j + 1) rest

/-- `hex_width` from the source: the padding target for the ASCII column
(`if !no_addr { width * 3 + 1 } else { width * 3 }`). -/
def hex_width (cfg : LayoutConfig) : Nat :=
  if !cfg.no_addr then cfg.width * 3 + 1 else cfg.width * 3

/-- `printed_hex` from the source: its estimate of the hex text already printed
for this chunk (`chunk.len() * 3 + if chunk.len() > 8 { 1 } else { 0 }`). -/
def printed_hex (chunk : List Nat) : Nat :=
  chunk.length * 3 + if chunk.length > 8 then 1 else 0

/-- The ASCII column of one row: padding spaces up to `hex_width`, then
`|ascii|`.  `none` models the `usize` overflow panic of
`hex_width - printed_hex` when `printed_hex > hex_width`. -/
def ascii_col (cfg : LayoutConfig) (chunk : List Nat) : Option String :=
  if cfg.no_ascii then some "" else
  if printed_hex chunk ≤ hex_width cfg then
    some (String.mk (List.replicate (hex_width cfg - printed_hex chunk) ' ')
      ++ "|" ++ asciiString chunk ++ "|")
  else none

/-- One structured row for chunk index `i`: optional address column
(`{:08X}: ` of `offset + i * width`), the hex cells, the optional padded ASCII
column, and the terminating newline. -/
def rowString (cfg : LayoutConfig) (base i : Nat) (chunk : List Nat) : Option String :=
  (ascii_col cfg chunk).map (fun ac =>
    (if !cfg.no_addr then addrHex (base + i * cfg.width) ++ ": " else "")
      ++ hexLoop cfg.no_group (cfg.width / 2) 0 chunk ++ ac ++ "\n")

/-- Fuel-indexed form of `slice::chunks`: consecutive blocks of `w` elements
(fuel at least the list length gives the real value when `w ≥ 1`). -/
def chunksF (w : Nat) : Nat → List Nat → List (List Nat)
  | _, [] => []
  | 0, l => [l]
  | fuel + 1, x :: xs => (x :: xs).take w :: chunksF w fuel ((x :: xs).drop w)

/-- `buf.chunks(w)` for `w ≥ 1`. -/
def chunksNZ (w : Nat) (l : List Nat) : List (List Nat) := chunksF w l.length l

/-- `buf.chunks(width)`; `none` models the Rust panic on chunk size 0. -/
def chunksOf (w : Nat) (l : List Nat) : Option (List (List Nat)) :=
  match w with
  | 0 => none
  | _ + 1 => some (chunksNZ w l)

/-- Render every chunk in order, threading the chunk index. -/
def renderRows (cfg : LayoutConfig) (base : Nat) : Nat → List (List Nat) → Option (List String)
  | _, [] => some []
  | i, c :: rest => do
      let r ← rowString cfg base i c
      let rs ← renderRows cfg base (i + 1) rest
      pure (r :: rs)

/-- The list of structured rows of a window. -/
def rowStrings (cfg : LayoutConfig) (base : Nat) (bytes : List Nat) : Option (List String) := do
  let cs ← chunksOf cfg.width bytes
  renderRows cfg base 0 cs

/-- Raw mode: every byte as `XX ` on a single line, then a newline
(source lines 91-95). -/
def rawRender (bytes : List Nat) : String := hexCellsStr bytes ++ "\n"

/-- The whole `View` output: raw mode overrides everything; structured mode may
panic (`none`). -/
def render (cfg : LayoutConfig) (base : Nat) (bytes : List Nat) : Option String :=
  if cfg.raw then some (rawRender bytes)
  else (rowStrings cfg base bytes).map String.join

/-- Spec §3 `Row`: the address and the hex byte cells of one chunk. -/
structure Row where
  addr : Nat
  hexCells : List Nat

/-- The faithful `Row` stream of the structured loop: chunk `i` carries address
`base + i * width` and its bytes as hex cells, and its row is produced only if
the row actually renders — the ASCII-column padding overflow aborts the loop,
so no row of a later chunk is produced either (`none` overall). -/
def renderRowsData (cfg : LayoutConfig) (base : Nat) : Nat → List (List Nat) → Option (List Row)
  | _, [] => some []
  | i, c :: rest => do
      let _ ← rowString cfg base i c
      let rs ← renderRowsData cfg base (i + 1) rest
      pure (Row.mk (base + i * cfg.width) c :: rs)

/-- The rendered rows of a window: `none` exactly when rendering panics. -/
def renderedRows (cfg : LayoutConfig) (base : Nat) (bytes : List Nat) : Option (List Row) := do
  let cs ← chunksOf cfg.width bytes
  renderRowsData cfg base 0 cs

/-- Decode two uppercase hex digit characters back to the byte value. -/
def hexDecodeDigit (c : Char) : Nat :=
  if c.toNat ≤ 57 then c.toNat - 48 else c.toNat - 55

/-- Decode a two-character hex token. -/
def hexDecode (s : String) : Nat :=
  match s.data with
  | [c1, c2] => 16 * hexDecodeDigit c1 + hexDecodeDigit c2
  | _ => 0

/-- Seek-and-write on a byte store: models POSIX `seek(off)` + `write_all(payload)`
on a regular file — overwrite in place, and seeking past the end zero-fills the
gap before the written bytes. -/
def writeAt (sink : List Nat) (off : Nat) (payload : List Nat) : List Nat :=
  sink.take off ++ List.replicate (off - sink.length) 0
    ++ payload ++ sink.drop (off + payload.length)

/-- The `Set` subcommand on an already-open sink: the new contents and the
reported written-byte count (`bytes.len()` in `println!("Wrote {} bytes ...")`). -/
def setCommand (sink : List Nat) (off : Nat) (payload : List Nat) : List Nat × Nat :=
  (writeAt sink off payload, payload.length)

/-- A write sink that can fail mid-write: `budget = some k` means the underlying
device accepts `k` more bytes and then raises an I/O error.  `write_all`
semantics: bytes accepted before the error stay written. -/
structure FailSink where
  data : List Nat
  budget : Option Nat

/-- `Write::write_all` against a `FailSink` positioned at `off`. -/
def writeAllF (s : FailSink) (off : Nat) (payload : List Nat) : FailSink × Except String Unit :=
  match s.budget with
  | none => (⟨writeAt s.data off payload, none⟩, Except.ok ())
  | some k =>
      if payload.length ≤ k then
        (⟨writeAt s.data off payload, some (k - payload.length)⟩, Except.ok ())
      else
        (⟨writeAt s.data off (payload.take k), some 0⟩, Except.error "io")

/-- The `Set` subcommand over a fallible sink: `Except.ok n` is the success
message `Wrote n bytes`; `Except.error e` is the I/O error propagated by the
`?` on `write_all`, which carries no written-byte count. -/
def setCommandF (s : FailSink) (off : Nat) (payload : List Nat) : FailSink × Except String Nat :=
  match writeAllF s off payload with
  | (s2, Except.ok _) => (s2, Except.ok payload.length)
  | (s2, Except.error e) => (s2, Except.error e)

/-- The written-byte count the program reports, if any. -/
def reportedCount (r : Except String Nat) : Option Nat :=
  match r with
  | Except.ok n => some n
  | Except.error _ => none

/-- Claim-side definition, from the spec's words for the hex-column footprint:
`width*3`, plus one extra character iff grouping is enabled and the full row has
more than 8 cells.  To be compared with the source's `hex_width`. -/
def specFootprint (w : Nat) (group : Bool) : Nat :=
  w * 3 + if group = true ∧ 8 < w then 1 else 0

/-- Claim-side definition, from the spec's words for raw mode: the tokens joined
with a single separating space. -/
def sepBySpace : List String → String
  | [] => ""
  | [t] => t
  | t :: t2 :: ts => t ++ " " ++ sepBySpace (t2 :: ts)

/-- Output column of the opening `|` of a row: the number of characters before
the first pipe. -/
def pipeCol (s : String) : Nat := (s.data.takeWhile (fun c => c != '|')).length

/-- An uppercase hexadecimal digit character. -/
def isUpperHexDigit (c : Char) : Bool :=
  decide (('0' ≤ c ∧ c ≤ '9') ∨ ('A' ≤ c ∧ c ≤ 'F'))

theorem chunksF_eq_chunksNZ (w : Nat) (hw : 1 ≤ w) :
    ∀ f l, List.length l ≤ f → chunksF w f l = chunksNZ w l := by
  intro f
  induction f using Nat.strong_induction_on with
  | _ f ih =>
    intro l hl
    cases l with
    | nil => cases f <;> rfl
    | cons x xs =>
      cases f with
      | zero => simp at hl
      | succ f2 =>
        have hd : ((x :: xs).drop w).length ≤ xs.length := by
          simp [List.length_drop]; omega
        have hxs : xs.length ≤ f2 := by simpa using hl
        have e1 : chunksF w (f2 + 1) (x :: xs)
            = (x :: xs).take w :: chunksF w f2 ((x :: xs).drop w) := rfl
        have e2 : chunksNZ w (x :: xs)
            = (x :: xs).take w :: chunksF w xs.length ((x :: xs).drop w) := rfl
        rw [e1, e2, ih f2 (Nat.lt_succ_self f2) _ (le_trans hd hxs),
          ih xs.length (Nat.lt_succ_of_le hxs) _ hd]

theorem chunksNZ_cons (w : Nat) (hw : 1 ≤ w) (x : Nat) (xs : List Nat) :
    chunksNZ w (x :: xs) = (x :: xs).take w :: chunksNZ w ((x :: xs).drop w) := by
  have e : chunksNZ w (x :: xs)
      = (x :: xs).take w :: chunksF w xs.length ((x :: xs).drop w) := rfl
  rw [e, chunksF_eq_chunksNZ w hw xs.length _ (by simp [List.length_drop]; omega)]

theorem chunksNZ_join (w : Nat) (hw : 1 ≤ w) : (l : List Nat) → (chunksNZ w l).flatten = l
  | [] => rfl
  | x :: xs => by
      rw [chunksNZ_cons w hw x xs, List.flatten_cons,
        chunksNZ_join w hw ((x :: xs).drop w), List.take_append_drop]
termination_by l => l.length
decreasing_by simp [List.length_drop]; omega

theorem renderRowsData_cells (cfg : LayoutConfig) (base : Nat) :
    ∀ cs i rs, renderRowsData cfg base i cs = some rs → rs.map Row.hexCells = cs := by
  intro cs
  induction cs with
  | nil =>
      intro i rs h
      simp only [renderRowsData, Option.some.injEq] at h
      subst h
      rfl
  | cons c rest ih =>
      intro i rs h
      cases hr : rowString cfg base i c with
      | none => simp [renderRowsData, hr] at h
      | some r =>
          cases hd : renderRowsData cfg base (i + 1) rest with
          | none => simp [renderRowsData, hr, hd] at h
          | some rs2 =>
              simp only [renderRowsData, hr, hd, Option.pure_def, Option.bind_eq_bind,
                Option.some_bind, Option.some.injEq] at h
              subst h
              simp [ih (i + 1) rs2 hd]

theorem renderRowsData_isSome (cfg : LayoutConfig) (base : Nat) :
    ∀ cs i, (renderRowsData cfg base i cs).isSome = (renderRows cfg base i cs).isSome := by
  intro cs
  induction cs with
  | nil => intro i; rfl
  | cons c rest ih =>
      intro i
      cases hr : rowString cfg base i c with
      | none => simp [renderRowsData, renderRows, hr]
      | some r =>
          have hih := ih (i + 1)
          cases hd : renderRowsData cfg base (i + 1) rest with
          | none =>
              rw [hd] at hih
              cases he : renderRows cfg base (i + 1) rest with
              | none => simp [renderRowsData, renderRows, hr, hd, he]
              | some l => rw [he] at hih; simp at hih
          | some rs2 =>
              rw [hd] at hih
              cases he : renderRows cfg base (i + 1) rest with
              | none => rw [he] at hih; simp at hih
              | some l => simp [renderRowsData, renderRows, hr, hd, he]

theorem hexDecode_hexByte : ∀ b < 256, hexDecode (hexByte b) = b := by decide

theorem map_hexDecode (bytes : List Nat) (hb : ∀ b ∈ bytes, b < 256) :
    (bytes.map hexByte).map hexDecode = bytes := by
  induction bytes with
  | nil => rfl
  | cons b bs ih =>
      simp only [List.map_cons, List.cons.injEq]
      exact ⟨hexDecode_hexByte b (hb b (by simp)),
        ih (fun x hx => hb x (by simp [hx]))⟩

theorem hexByte_upper :
    ∀ b < 256, ((hexByte b).length == 2 && (hexByte b).data.all isUpperHexDigit) = true := by
  decide

theorem hexLoop_true (mid : Nat) : ∀ j chunk, hexLoop true mid j chunk = hexCellsStr chunk := by
  intro j chunk
  induction chunk generalizing j with
  | nil => rfl
  | cons b bs ih => simp [hexLoop, hexCellsStr, ih]

theorem hexLoop_false_after (mid : Nat) :
    ∀ chunk j, mid ≤ j → hexLoop false mid j chunk = hexCellsStr chunk := by
  intro chunk
  induction chunk with
  | nil => intro j _; rfl
  | cons b bs ih =>
      intro j hj
      have hne : (j + 1 == mid) = false := beq_eq_false_iff_ne.mpr (by omega)
      simp [hexLoop, hne, hexCellsStr, ih (j + 1) (by omega)]

theorem hexLoop_false_short (mid : Nat) :
    ∀ chunk j, j + chunk.length < mid → hexLoop false mid j chunk = hexCellsStr chunk := by
  intro chunk
  induction chunk with
  | nil => intro j _; rfl
  | cons b bs ih =>
      intro j hj
      simp only [List.length_cons] at hj
      have hne : (j + 1 == mid) = false := beq_eq_false_iff_ne.mpr (by omega)
      simp [hexLoop, hne, hexCellsStr, ih (j + 1) (by omega)]

theorem hexLoop_false_split (mid : Nat) :
    ∀ chunk j, j < mid → mid ≤ j + chunk.length →
      hexLoop false mid j chunk
        = hexCellsStr (chunk.take (mid - j)) ++ " " ++ hexCellsStr (chunk.drop (mid - j)) := by
  intro chunk
  induction chunk with
  | nil => intro j h1 h2; simp at h2; omega
  | cons b bs ih =>
      intro j h1 h2
      simp only [List.length_cons] at h2
      by_cases hj : j + 1 = mid
      · have hmj : mid - j = 1 := by omega
        have hb : (j + 1 == mid) = true := beq_iff_eq.mpr hj
        rw [hmj]
        simp [hexLoop, hb, hexCellsStr,
          hexLoop_false_after mid bs (j + 1) (by omega), String.append_assoc]
      · have hb : (j + 1 == mid) = false := beq_eq_false_iff_ne.mpr hj
        obtain ⟨k, hk⟩ : ∃ k, mid - j = k + 1 := ⟨mid - j - 1, by omega⟩
        have hk2 : mid - (j + 1) = k := by omega
        rw [hk, List.take_succ_cons, List.drop_succ_cons]
        simp [hexLoop, hb, hexCellsStr, ih (j + 1) (by omega) (by omega), hk2,
          String.append_assoc]

theorem hexCellsStr_sepBySpace :
    ∀ bytes : List Nat, bytes ≠ [] →
      hexCellsStr bytes = sepBySpace (bytes.map hexByte) ++ " " := by
  intro bytes
  induction bytes with
  | nil => intro h; exact absurd rfl h
  | cons b bs ih =>
      intro _
      cases bs with
      | nil => simp [hexCellsStr, hexCell, sepBySpace]
      | cons b2 bs2 =>
          have ih2 := ih (by simp)
          have e : sepBySpace (List.map hexByte (b :: b2 :: bs2))
              = hexByte b ++ " " ++ sepBySpace (List.map hexByte (b2 :: bs2)) := rfl
          show hexCell b ++ hexCellsStr (b2 :: bs2)
              = sepBySpace (List.map hexByte (b :: b2 :: bs2)) ++ " "
          rw [e, ih2, hexCell]
          simp [String.append_assoc]

/-- C1: counterexample — with width 16, the address column hidden and the
ASCII column shown, rendering a 17-byte window aborts on the first row's
padding overflow after emitting only that row's 16 hex cells, so there is no
list of rendered rows whose hex cells concatenate to the window. -/
theorem c1_completed_cex :
    (renderedRows ⟨16, false, true, false, false⟩ 0 (List.replicate 17 0)).map
        (fun rs => (rs.map Row.hexCells).flatten) ≠ some (List.replicate 17 0)
    ∧ renderedRows ⟨16, false, true, false, false⟩ 0 (List.replicate 17 0) = none :=
  ⟨by decide, rfl⟩

/-- C1 (amended): for every window, every width ≥ 1, and every combination of
the grouping, address, and ascii flags for which the structured render runs to
completion, concatenating the hex byte cells of all rendered rows, in order,
yields exactly the bytes of the window, each once and in window order; and
likewise in raw mode (which always completes): its output is the concatenation
of one two-hex-digit cell plus separating space per window byte, and those
cells decode back to exactly the window. -/
theorem c1_roundtrip_amended (bytes : List Nat) (base w : Nat) (g a s : Bool)
    (hw : 1 ≤ w) (hb : ∀ b ∈ bytes, b < 256)
    (hok : (render ⟨w, g, a, s, false⟩ base bytes).isSome = true) :
    (renderedRows ⟨w, g, a, s, false⟩ base bytes).map
        (fun rs => (rs.map Row.hexCells).flatten) = some bytes
    ∧ render ⟨w, g, a, s, true⟩ base bytes = some (hexCellsStr bytes ++ "\n")
    ∧ (bytes.map hexByte).map hexDecode = bytes := by
  refine ⟨?_, rfl, map_hexDecode bytes hb⟩
  obtain ⟨w2, rfl⟩ : ∃ w2, w = w2 + 1 := ⟨w - 1, by omega⟩
  have h1 : (rowStrings ⟨w2 + 1, g, a, s, false⟩ base bytes).isSome = true := by
    simpa [render] using hok
  have h2 : (renderRows ⟨w2 + 1, g, a, s, false⟩ base 0 (chunksNZ (w2 + 1) bytes)).isSome
      = true := by
    simpa [rowStrings, chunksOf] using h1
  have h3 : (renderRowsData ⟨w2 + 1, g, a, s, false⟩ base 0 (chunksNZ (w2 + 1) bytes)).isSome
      = true := by
    rw [renderRowsData_isSome]
    exact h2
  obtain ⟨rs, hrs⟩ := Option.isSome_iff_exists.mp h3
  have hcells := renderRowsData_cells ⟨w2 + 1, g, a, s, false⟩ base (chunksNZ (w2 + 1) bytes) 0 rs hrs
  have hrr : renderedRows ⟨w2 + 1, g, a, s, false⟩ base bytes = some rs := by
    simpa [renderedRows, chunksOf] using hrs
  rw [hrr]
  simp only [Option.map_some']
  rw [hcells, chunksNZ_join (w2 + 1) (by omega) bytes]

theorem c1_roundtrip_amended_witness :
    (renderedRows ⟨3, true, false, false, false⟩ 2 [0, 171, 255, 16]).map
        (fun rs => (rs.map Row.hexCells).flatten) = some [0, 171, 255, 16]
    ∧ render ⟨3, true, false, false, true⟩ 2 [0, 171, 255, 16]
        = some (hexCellsStr [0, 171, 255, 16] ++ "\n")
    ∧ ([0, 171, 255, 16].map hexByte).map hexDecode = [0, 171, 255, 16] :=
  c1_roundtrip_amended [0, 171, 255, 16] 2 3 true false false (by decide) (by decide) (by decide)

/-- C2: refuted on the code — with width 16, grouping disabled, address and
ASCII columns shown, a 17-byte window renders its two `|` delimiters at
different columns: 58 on the full row but 59 on the short final row, because
the padding target `hex_width` and the estimate `printed_hex` do not track the
actually printed hex text. -/
theorem c2_misaligned_eval :
    (rowStrings ⟨16, true, false, false, false⟩ 0 (List.replicate 17 0)).map
        (fun rs => rs.map pipeCol) = some [58, 59] := by decide

/-- C3: counterexample — with width 16, grouping enabled and the address column
hidden, the source's padding target `hex_width` is 48, while the claimed
footprint (`width*3`, plus one because grouping is on and the width exceeds 8)
is 49: the extra character follows the address flag, not grouping. -/
theorem c3_footprint_cex :
    hex_width ⟨16, false, true, false, false⟩ ≠ specFootprint 16 true := by decide

/-- C3 (amended): the fixed hex-column footprint `hex_width` equals `width*3`
plus exactly one extra character if and only if the address column is shown; it
does not depend on the grouping flag or on the actual chunk length, and when
the padding subtraction does not overflow, the padding restores the printed-hex
estimate up to exactly that footprint. -/
theorem c3_footprint_amended (cfg : LayoutConfig) (chunk : List Nat)
    (h : printed_hex chunk ≤ hex_width cfg) :
    hex_width cfg = cfg.width * 3 + (if cfg.no_addr then 0 else 1)
    ∧ hex_width { cfg with no_group := true } = hex_width { cfg with no_group := false }
    ∧ printed_hex chunk + (hex_width cfg - printed_hex chunk) = hex_width cfg := by
  refine ⟨?_, rfl, Nat.add_sub_cancel' h⟩
  cases hna : cfg.no_addr <;> simp [hex_width, hna]

theorem c3_footprint_amended_witness :
    hex_width ⟨16, true, false, false, false⟩ = 16 * 3 + 1
    ∧ hex_width ⟨16, true, false, false, false⟩ = hex_width ⟨16, false, false, false, false⟩
    ∧ printed_hex [1, 2] + (hex_width ⟨16, true, false, false, false⟩ - printed_hex [1, 2])
        = hex_width ⟨16, true, false, false, false⟩ :=
  c3_footprint_amended ⟨16, true, false, false, false⟩ [1, 2] (by decide)

/-- C4: refuted on the code — with width 16, the address column hidden and the
ASCII column shown, a 16-byte window gives `printed_hex = 49 > 48 = hex_width`,
so the `usize` subtraction `hex_width - printed_hex` overflows (a panic in a
debug build): rendering does not run to completion (`none`). -/
theorem c4_panic_eval :
    render ⟨16, false, true, false, false⟩ 0 (List.replicate 16 0) = none := by decide

/-- C5: counterexample — the byte `0x20` is displayed as a literal space in the
ASCII column (it satisfies the `== b' '` disjunct and is not a control
character), so the column for `[41 42 0A 20]` reads `AB. `, not `AB..`. -/
theorem c5_ascii_cex : asciiString [65, 66, 10, 32] ≠ "AB.." := by decide

/-- C5 (amended): rendering `[0x41, 0x42, 0x0A, 0x20]` with base offset 0,
width 4, address and ASCII shown, grouping off, produces exactly one row whose
address text is `00000000: `, whose hex text is `41 42 0A 20 `, followed by one
alignment space and the ASCII column `|AB. |` — `0x0A` maps to `.` and `0x20`
stays a literal space. -/
theorem c5_render_eval :
    render ⟨4, true, false, false, false⟩ 0 [65, 66, 10, 32]
      = some ("00000000: " ++ "41 42 0A 20 " ++ " " ++ "|AB. |" ++ "\n") := by decide

/-- C6: counterexample — the raw output for the window `[0xAA]` is `AA \n`,
with a trailing space before the newline, not the claimed hex tokens separated
only by single spaces and terminated directly by a newline (`AA\n`). -/
theorem c6_trailing_space_cex :
    render ⟨16, false, false, false, true⟩ 0 [170]
      ≠ some (sepBySpace ([170].map hexByte) ++ "\n") := by decide

/-- C6 (amended): in raw mode, for every byte window, the entire output is the
two-uppercase-hex-digit cells of the window bytes, consecutive cells separated
by a single space and followed by one trailing space (the empty window
producing just the terminating newline), all on one line terminated by a
newline; and the output is identical for every width, base offset, and setting
of the no-group / no-addr / no-ascii flags. -/
theorem c6_raw_amended (bytes : List Nat) (base base2 w w2 : Nat)
    (g a s g2 a2 s2 : Bool) (hb : ∀ b ∈ bytes, b < 256) :
    render ⟨w, g, a, s, true⟩ base bytes = render ⟨w2, g2, a2, s2, true⟩ base2 bytes
    ∧ render ⟨w, g, a, s, true⟩ base bytes
        = some (if bytes = [] then "\n"
            else sepBySpace (bytes.map hexByte) ++ " " ++ "\n")
    ∧ (bytes.map hexByte).all (fun t => t.length == 2 && t.data.all isUpperHexDigit) = true := by
  refine ⟨rfl, ?_, ?_⟩
  · cases bytes with
    | nil => rfl
    | cons b bs =>
        show some (rawRender (b :: bs)) = _
        rw [if_neg (by simp), rawRender, hexCellsStr_sepBySpace (b :: bs) (by simp)]
  · rw [List.all_eq_true]
    intro t ht
    obtain ⟨b, hbm, rfl⟩ := List.mem_map.mp ht
    exact hexByte_upper b (hb b hbm)

theorem c6_raw_amended_witness :
    render ⟨16, true, false, true, true⟩ 5 [170, 0] = render ⟨3, false, true, false, true⟩ 7 [170, 0]
    ∧ render ⟨16, true, false, true, true⟩ 5 [170, 0]
        = some (if ([170, 0] : List Nat) = [] then "\n"
            else sepBySpace ([170, 0].map hexByte) ++ " " ++ "\n")
    ∧ ([170, 0].map hexByte).all (fun t => t.length == 2 && t.data.all isUpperHexDigit) = true :=
  c6_raw_amended [170, 0] 5 7 16 3 true false true false true false (by decide)

/-- C7: with grouping enabled the hex loop inserts exactly one extra space
immediately after the cell at index `width/2 - 1` in every chunk that reaches
that index — the cells split as `take (width/2)`, one space, `drop (width/2)` —
and inserts none in a chunk that does not reach it (including the degenerate
`width = 1`, whose midpoint index does not exist); with grouping disabled the
loop is the plain cell concatenation. -/
theorem c7_grouping (w : Nat) (chunk : List Nat) (hw : 1 ≤ w) :
    (1 ≤ w / 2 → w / 2 ≤ chunk.length →
      hexLoop false (w / 2) 0 chunk
        = hexCellsStr (chunk.take (w / 2)) ++ " " ++ hexCellsStr (chunk.drop (w / 2)))
    ∧ (chunk.length < w / 2 ∨ w / 2 = 0 → hexLoop false (w / 2) 0 chunk = hexCellsStr chunk)
    ∧ hexLoop true (w / 2) 0 chunk = hexCellsStr chunk := by
  refine ⟨fun h1 h2 => ?_, fun h => ?_, hexLoop_true _ 0 chunk⟩
  · have := hexLoop_false_split (w / 2) chunk 0 h1 (by omega)
    simpa using this
  · rcases h with h | h
    · exact hexLoop_false_short _ chunk 0 (by omega)
    · rw [h]
      exact hexLoop_false_after 0 chunk 0 (by omega)

theorem c7_grouping_witness :
    hexLoop false (4 / 2) 0 [1, 2, 3]
      = hexCellsStr ([1, 2, 3].take (4 / 2)) ++ " " ++ hexCellsStr ([1, 2, 3].drop (4 / 2)) :=
  (c7_grouping 4 [1, 2, 3] (by decide)).1 (by decide) (by decide)

/-- C8: a patch at an offset within the sink's extent reports a written-byte
count equal to the payload length, places the payload verbatim at
`[offset, offset + len)` (so the slice of length `len` starting at `offset` is
the payload), and leaves the bytes before `offset` and from `offset + len` on
unchanged. -/
theorem c8_patch_exact (sink payload : List Nat) (off : Nat)
    (hoff : off ≤ sink.length) (hp : payload ≠ []) :
    (setCommand sink off payload).2 = payload.length
    ∧ ((setCommand sink off payload).1.drop off).take payload.length = payload
    ∧ (setCommand sink off payload).1.take off = sink.take off
    ∧ (setCommand sink off payload).1.drop (off + payload.length)
        = sink.drop (off + payload.length) := by
  have hrep : List.replicate (off - sink.length) (0 : Nat) = [] := by
    rw [Nat.sub_eq_zero_of_le hoff]
    rfl
  have h1 : (sink.take off).length = off := by
    simp [List.length_take, Nat.min_eq_left hoff]
  have hw : writeAt sink off payload
      = sink.take off ++ (payload ++ sink.drop (off + payload.length)) := by
    unfold writeAt
    rw [hrep]
    simp
  refine ⟨rfl, ?_, ?_, ?_⟩
  · show ((writeAt sink off payload).drop off).take payload.length = payload
    rw [hw, List.drop_left' h1, List.take_left' rfl]
  · show (writeAt sink off payload).take off = sink.take off
    rw [hw, List.take_left' h1]
  · show (writeAt sink off payload).drop (off + payload.length)
        = sink.drop (off + payload.length)
    rw [hw, ← List.append_assoc, List.drop_left' (by simp [h1])]

theorem c8_patch_exact_witness :
    (setCommand (List.replicate 24 7) 16 [170, 221, 204, 186]).2 = [170, 221, 204, 186].length
    ∧ ((setCommand (List.replicate 24 7) 16 [170, 221, 204, 186]).1.drop 16).take
        [170, 221, 204, 186].length = [170, 221, 204, 186]
    ∧ (setCommand (List.replicate 24 7) 16 [170, 221, 204, 186]).1.take 16
        = (List.replicate 24 7).take 16
    ∧ (setCommand (List.replicate 24 7) 16 [170, 221, 204, 186]).1.drop
        (16 + [170, 221, 204, 186].length)
        = (List.replicate 24 7).drop (16 + [170, 221, 204, 186].length) :=
  c8_patch_exact (List.replicate 24 7) [170, 221, 204, 186] 16 (by decide) (by decide)

/-- C9: counterexample — on a sink that accepts 2 more bytes and then fails,
patching the 4-byte payload `[1 2 3 4]` at offset 0 physically writes the
2-byte prefix, yet the program propagates the I/O error and reports no
written-byte count at all — in particular not the actual count 2. -/
theorem c9_report_cex :
    (setCommandF ⟨List.replicate 8 0, some 2⟩ 0 [1, 2, 3, 4]).2 = Except.error "io"
    ∧ (setCommandF ⟨List.replicate 8 0, some 2⟩ 0 [1, 2, 3, 4]).1.data
        = [1, 2, 0, 0, 0, 0, 0, 0]
    ∧ reportedCount (setCommandF ⟨List.replicate 8 0, some 2⟩ 0 [1, 2, 3, 4]).2 ≠ some 2 := by
  refine ⟨rfl, by decide, by decide⟩

/-- C9 (amended): when the write fails after a proper prefix of the payload has
been accepted, the Set command propagates the sink's I/O error and reports no
written-byte count (neither the actual prefix length, nor zero, nor success);
the accepted prefix does remain physically written in the sink. -/
theorem c9_error_report (s : FailSink) (off : Nat) (payload : List Nat) (k : Nat)
    (hb : s.budget = some k) (hk : k < payload.length) :
    (setCommandF s off payload).2 = Except.error "io"
    ∧ reportedCount (setCommandF s off payload).2 = none
    ∧ (setCommandF s off payload).1.data = writeAt s.data off (payload.take k) := by
  obtain ⟨d, bud⟩ := s
  simp only at hb
  subst hb
  have hwf : writeAllF ⟨d, some k⟩ off payload
      = (⟨writeAt d off (payload.take k), some 0⟩, Except.error "io") := by
    rw [show writeAllF ⟨d, some k⟩ off payload
        = if payload.length ≤ k then
            (⟨writeAt d off payload, some (k - payload.length)⟩, Except.ok ())
          else (⟨writeAt d off (payload.take k), some 0⟩, Except.error "io") from rfl,
      if_neg (Nat.not_le.mpr hk)]
  unfold setCommandF
  rw [hwf]
  exact ⟨rfl, rfl, rfl⟩

theorem c9_error_report_witness :
    (setCommandF ⟨[9, 9], some 1⟩ 1 [5, 6, 7]).2 = Except.error "io"
    ∧ reportedCount (setCommandF ⟨[9, 9], some 1⟩ 1 [5, 6, 7]).2 = none
    ∧ (setCommandF ⟨[9, 9], some 1⟩ 1 [5, 6, 7]).1.data = writeAt [9, 9] 1 ([5, 6, 7].take 1) :=
  c9_error_report ⟨[9, 9], some 1⟩ 1 [5, 6, 7] 1 rfl (by decide)

/-- C10: patching a non-empty payload at an offset strictly beyond the sink's
current length does not fail with an out-of-range error: the sink grows to
`offset + payload length`, the old contents are unchanged, the gap
`[old length, offset)` reads as zeros, the tail from `offset` is exactly the
payload, and the reported count is still the payload length. -/
theorem c10_extend (sink payload : List Nat) (off : Nat)
    (hoff : sink.length < off) (hp : payload ≠ []) :
    (setCommand sink off payload).1.length = off + payload.length
    ∧ (setCommand sink off payload).1.take sink.length = sink
    ∧ ((setCommand sink off payload).1.drop sink.length).take (off - sink.length)
        = List.replicate (off - sink.length) 0
    ∧ (setCommand sink off payload).1.drop off = payload
    ∧ (setCommand sink off payload).2 = payload.length := by
  have hle : sink.length ≤ off := le_of_lt hoff
  have htk : sink.take off = sink := List.take_of_length_le hle
  have hdr : sink.drop (off + payload.length) = [] := List.drop_eq_nil_of_le (by omega)
  have hw : writeAt sink off payload
      = sink ++ (List.replicate (off - sink.length) 0 ++ payload) := by
    unfold writeAt
    rw [htk, hdr]
    simp
  refine ⟨?_, ?_, ?_, ?_, rfl⟩
  · show (writeAt sink off payload).length = off + payload.length
    rw [hw]
    simp only [List.length_append, List.length_replicate]
    omega
  · show (writeAt sink off payload).take sink.length = sink
    rw [hw, List.take_left' rfl]
  · show ((writeAt sink off payload).drop sink.length).take (off - sink.length)
        = List.replicate (off - sink.length) 0
    rw [hw, List.drop_left' rfl, List.take_left' (List.length_replicate _ _)]
  · show (writeAt sink off payload).drop off = payload
    rw [hw, ← List.append_assoc, List.drop_left' (by simp; omega)]

theorem c10_extend_witness :
    (setCommand [5, 6] 5 [1, 2]).1.length = 5 + [1, 2].length
    ∧ (setCommand [5, 6] 5 [1, 2]).1.take ([5, 6] : List Nat).length = [5, 6]
    ∧ ((setCommand [5, 6] 5 [1, 2]).1.drop ([5, 6] : List Nat).length).take
        (5 - ([5, 6] : List Nat).length) = List.replicate (5 - ([5, 6] : List Nat).length) 0
    ∧ (setCommand [5, 6] 5 [1, 2]).1.drop 5 = [1, 2]
    ∧ (setCommand [5, 6] 5 [1, 2]).2 = [1, 2].length :=
  c10_extend [5, 6] [1, 2] 5 (by decide) (by decide)
